import Mathlib

/-!
Shallow embedding of the l4g structured-logging library (go-slim/l4g).

Scope of the model, and how Go features are represented:

* Machine integers: Go `int`/`int64` become `Int`, `uint64` becomes `Nat`.
  `Level` is an `Int` (source: level.go, `type Level int`).
* `slog.Value` is a tagged union; we model the kinds the library's own code
  paths distinguish.  An opaque `any` payload is represented by the string
  that Go's `fmt.Sprintf("%+v", v)` would produce for it (the renderer only
  ever uses that formatted text); the nil payload (`slog.Value{}` /
  `slog.AnyValue(nil)`) is the dedicated constructor `anyNil`.  A
  `time.Time` value is represented by its formatted text (`timeV`), with
  `none` in `Record.time` standing for the zero time (`Time.IsZero`).
* Go slices carry length and capacity, and `Record.back`'s capacity is
  semantically relevant (aliasing detection, `slices.Clip`, `slices.Grow`).
  `GoSlice` models a slice as its elements (`data`) plus the contents of
  the backing array between length and capacity (`spare`).  `append` with
  spare capacity overwrites the first spare slot; `append` at full
  capacity reallocates (fresh backing array, no spare retained — the extra
  zeroed capacity Go would allocate is observationally equal to no spare,
  because the code only ever reads the slot just past the length and only
  finds zeros there after a reallocation).
* The byte buffer of the handler is a `String`; each Go append-to-buffer
  helper is modelled as a function returning the segment it appends, and
  the buffer threading in `Handle` is explicit concatenation.
* The output sink (`io.Writer`) is modelled by the error its single
  `Write` call returns, as a function of the written bytes
  (`writeErr : String → Option String`); `Handle` returns the written
  line together with that error.
-/

namespace L4g

/-- Log severity level, from level.go: `type Level int` with
`LevelTrace = 1` through `LevelFatal = 7`. -/
abbrev Level := Int

def LevelTrace : Level := 1
def LevelDebug : Level := 2
def LevelInfo : Level := 3
def LevelWarn : Level := 4
def LevelError : Level := 5
def LevelPanic : Level := 6
def LevelFatal : Level := 7

/-- Lowercase level name, from level.go `Level.String`. -/
def levelString (l : Level) : String :=
  if l = LevelDebug then "debug"
  else if l = LevelInfo then "info"
  else if l = LevelWarn then "warn"
  else if l = LevelError then "error"
  else if l = LevelPanic then "panic"
  else if l ≤ LevelTrace then "trace"
  else "fatal"

/-- A `slog.Value`: tagged union over the kinds the library distinguishes.
`str`/`int`/`uint`/`bool` are the primitive kinds; `group` is an ordered
attribute list (keys paired with values); `anyNil` is the zero value
`slog.Value{}` / `slog.AnyValue(nil)`; `any s` is an opaque `KindAny`
payload represented by its `%+v` formatting `s`; `anyAttr` is
`slog.AnyValue` applied to an `Attr`; `timeV` is a `KindTime` value
represented by its formatted text; `levelV` is `slog.AnyValue` applied to
a `Level`; `color` is the `colorValue` wrapper (a `KindLogValuer` whose
`LogValue` returns the wrapped value, carrying an ANSI palette index). -/
inductive Value where
  | str (s : String)
  | int (i : Int)
  | uint (n : Nat)
  | bool (b : Bool)
  | group (as : List (String × Value))
  | anyNil
  | any (s : String)
  | anyAttr (k : String) (v : Value)
  | timeV (t : String)
  | levelV (l : Level)
  | color (c : Nat) (v : Value)
deriving Repr

/-- An `Attr` is a key paired with a `Value` (attr.go: `Attr = slog.Attr`). -/
abbrev Attr := String × Value

/-- Key accessor of an `Attr` (Go field `Key`). -/
def Attr.key (a : Attr) : String := a.1

/-- Value accessor of an `Attr` (Go field `Value`). -/
def Attr.val (a : Attr) : Value := a.2

/-- `String(key, value)` constructor (attr.go). -/
def StringAttr (k s : String) : Attr := (k, Value.str s)

/-- record.go `isEmptyAttr`: empty key and nil value (`Attr{}` or
`Any("", nil)`). -/
def isEmptyAttr (a : Attr) : Bool :=
  match a with
  | ("", Value.anyNil) => true
  | _ => false

/-- record.go `isEmptyGroup`: a group value with no attributes. -/
def isEmptyGroup (v : Value) : Bool :=
  match v with
  | Value.group as => as.isEmpty
  | _ => false

/-- record.go: `nAttrsInline = 5`, the inline attribute capacity. -/
def nAttrsInline : Nat := 5

/-- The zero `Attr` stored in unused backing-array slots. -/
def zeroAttr : Attr := ("", Value.anyNil)

/-- A Go slice of attrs: `data` are the elements in `[0, len)`, `spare`
the backing-array contents in `[len, cap)`. -/
structure GoSlice where
  data : List Attr
  spare : List Attr
deriving Repr

/-- `slices.Clip`: capacity becomes the length (no spare slots). -/
def GoSlice.clip (s : GoSlice) : GoSlice := ⟨s.data, []⟩

/-- Go `append` of one element: with spare capacity the first spare slot
is overwritten; at full capacity a fresh backing array is allocated. -/
def GoSlice.push (s : GoSlice) (a : Attr) : GoSlice :=
  match s.spare with
  | [] => ⟨s.data ++ [a], []⟩
  | _ :: t => ⟨s.data ++ [a], t⟩

/-- Go `append` of a list of elements, one at a time. -/
def GoSlice.pushAll (s : GoSlice) (as : List Attr) : GoSlice :=
  as.foldl GoSlice.push s

/-- `slices.Grow(s, n)`: ensure at least `n` spare capacity; reallocating
produces a fresh backing array whose extra slots are zeroed. -/
def GoSlice.grow (s : GoSlice) (n : Nat) : GoSlice :=
  if n ≤ s.spare.length then s
  else ⟨s.data, List.replicate n zeroAttr⟩

/-- A log `Record` (record.go): event time (formatted text, `none` for the
zero time), prefix, message, level, the inline attribute array `front`
(invariant: length at most `nAttrsInline`) and the overflow slice `back`. -/
structure Record where
  time : Option String
  pfx : String
  message : String
  level : Level
  front : List Attr
  back : GoSlice
deriving Repr

/-- record.go `NewRecord`: a record with no attributes. -/
def NewRecord (t : Option String) (level : Level) (msg : String) : Record :=
  { time := t, pfx := "", message := msg, level := level
    front := [], back := ⟨[], []⟩ }

/-- record.go `Record.NumAttrs`: inline count plus overflow length. -/
def Record.NumAttrs (r : Record) : Nat :=
  r.front.length + r.back.data.length

/-- record.go `Record.Clone`: clip the overflow slice's capacity so later
appends on the clone allocate a fresh backing array. -/
def Record.Clone (r : Record) : Record :=
  { r with back := r.back.clip }

/-- The attributes of a record in iteration order (inline then overflow),
as visited by `Record.Attrs` with an always-true visitor. -/
def Record.attrsList (r : Record) : List Attr :=
  r.front ++ r.back.data

/-- record.go `Record.Attrs` with an early-stopping visitor: the list of
attrs on which `f` is invoked (iteration stops after the first `false`). -/
def visitList (f : Attr → Bool) : List Attr → List Attr
  | [] => []
  | a :: rest => if f a then a :: visitList f rest else [a]

/-- The attrs visited by `Record.Attrs r f`. -/
def Record.AttrsVisited (r : Record) (f : Attr → Bool) : List Attr :=
  visitList f r.attrsList

/-- Phase 1 of record.go `Record.AddAttrs`: fill the inline array while it
has room, skipping empty groups; returns the new inline list and the
unconsumed suffix. -/
def addFront : List Attr → List Attr → List Attr × List Attr
  | front, [] => (front, [])
  | front, a :: rest =>
    if front.length < nAttrsInline then
      if isEmptyGroup a.val then addFront front rest
      else addFront (front ++ [a]) rest
    else (front, a :: rest)

/-- record.go `countEmptyGroups`. -/
def countEmptyGroups (as : List Attr) : Nat :=
  (as.filter (fun a => isEmptyGroup a.val)).length

/-- The diagnostic attr record.go appends on detected aliasing corruption. -/
def bugAttr : Attr :=
  StringAttr "!BUG"
    "AddAttrs unsafely called on copy of Record made without using Record.Clone"

/-- record.go `Record.AddAttrs`: fill the inline array, then check the
overflow slice's next spare slot for a non-zero attr (aliasing corruption
from an un-cloned copy); if corrupted, clip to a fresh array and append
the `!BUG` diagnostic; finally grow and append the remaining non-empty
attrs to the overflow slice. -/
def Record.AddAttrs (r : Record) (attrs : List Attr) : Record :=
  let fr := addFront r.front attrs
  let back1 :=
    match r.back.spare with
    | [] => r.back
    | e :: _ =>
      if isEmptyAttr e then r.back
      else (r.back.clip).push bugAttr
  let rest := fr.2
  let ne := countEmptyGroups rest
  let back2 := back1.grow (rest.length - ne)
  let back3 := back2.pushAll (rest.filter (fun a => !isEmptyGroup a.val))
  { r with front := fr.1, back := back3 }

/-- A dynamically-typed Go value as it appears in a variadic argument
list, other than an `Attr`: a string, an int, a bool, or an opaque value
represented by its `%+v` formatting. -/
inductive GoAny where
  | str (s : String)
  | int (i : Int)
  | bool (b : Bool)
  | raw (s : String)
deriving Repr

/-- One element of a variadic `...any` argument list: either a pre-built
`Attr` or a primitive/opaque value. -/
inductive Arg where
  | attr (a : Attr)
  | prim (v : GoAny)
deriving Repr

/-- `slog.AnyValue` on a non-`Attr` dynamic value: known primitive types
map to their kinds, anything else stays an opaque `KindAny` payload. -/
def AnyValue : GoAny → Value
  | GoAny.str s => Value.str s
  | GoAny.int i => Value.int i
  | GoAny.bool b => Value.bool b
  | GoAny.raw s => Value.any s

/-- `slog.AnyValue` on an arbitrary argument-list element (an `Attr` in
value position becomes a `KindAny` payload holding the attr). -/
def argAnyValue : Arg → Value
  | Arg.prim v => AnyValue v
  | Arg.attr a => Value.anyAttr a.key a.val

/-- record.go: the sentinel key for attributes that have a value but no
key. -/
def badKey : String := "!BADKEY"

/-- record.go `argsToAttr` on the non-empty list `a0 :: rest`: an `Attr`
is consumed as-is; a string is a key paired with the next element as
value (a lone string becomes `String(badKey, x)`); anything else becomes
a value under `badKey`. -/
def argsToAttr (a0 : Arg) (rest : List Arg) : Attr × List Arg :=
  match a0, rest with
  | Arg.prim (GoAny.str s), [] => (StringAttr badKey s, [])
  | Arg.prim (GoAny.str s), x :: rest1 => ((s, argAnyValue x), rest1)
  | Arg.attr a, rest1 => (a, rest1)
  | Arg.prim v, rest1 => ((badKey, AnyValue v), rest1)

/-- The unconsumed suffix returned by `argsToAttr` is no longer than the
input tail. -/
theorem argsToAttr_rest_length (a0 : Arg) (rest : List Arg) :
    (argsToAttr a0 rest).2.length ≤ rest.length := by
  cases a0 with
  | attr a => simp [argsToAttr]
  | prim v =>
    cases v with
    | str s => cases rest <;> simp [argsToAttr]
    | int i => simp [argsToAttr]
    | bool b => simp [argsToAttr]
    | raw s => simp [argsToAttr]

/-- attr.go `argsToAttrSlice`: repeatedly consume the argument list with
`argsToAttr`. -/
def argsToAttrSlice : List Arg → List Attr
  | [] => []
  | a0 :: rest =>
    let p := argsToAttr a0 rest
    p.1 :: argsToAttrSlice p.2
termination_by args => args.length
decreasing_by
  have := argsToAttr_rest_length a0 rest
  simp only [List.length_cons]
  omega

/-! ### Quoting (handler.go `safeSet`, `needsQuoting`, `cut`, `appendString`) -/

/-- Model of `unicode.IsSpace` for runes at or above 128 (the ASCII range
is handled separately by `needsQuoting`): the Latin-1 space runes. -/
def goIsSpace (c : Char) : Bool :=
  c.toNat = 0x85 || c.toNat = 0xA0

/-- Model of `unicode.IsPrint` for runes at or above 128: Latin-1
printables; runes beyond Latin-1 are treated as printable in this model. -/
def goIsPrint (c : Char) : Bool :=
  if c.toNat < 0x100 then 0xA0 ≤ c.toNat && c.toNat ≠ 0xAD else true

/-- handler.go `safeSet` (the slog JSON safe set extended with the ANSI
escape byte 0x1b): true for printable ASCII except `"` and backslash, for
0x7f, and for 0x1b; false for all other control bytes. -/
def safeSet (c : Char) : Bool :=
  c = '\x1b' || (0x20 ≤ c.toNat && c.toNat ≤ 0x7f && c ≠ '"' && c ≠ '\\')

/-- The per-character test inside handler.go `needsQuoting`. -/
def needsQuotingChar (c : Char) : Bool :=
  if c.toNat < 128 then
    c ≠ '\\' && (c = ' ' || c = '=' || !safeSet c)
  else
    goIsSpace c || !goIsPrint c

/-- handler.go `needsQuoting`: the empty string always needs quoting;
otherwise quote when any character triggers. -/
def needsQuoting (s : String) : Bool :=
  s.isEmpty || s.data.any needsQuotingChar

/-- The character filter of handler.go `cut` as used by `appendString`:
drop ANSI escape sequences (from an escape byte up to and including the
terminating letter), tracking the in-escape state. -/
def cutChars : Bool → List Char → List Char
  | _, [] => []
  | inEscape, c :: rest =>
    if c = '\x1b' then cutChars true rest
    else if inEscape && c.isAlpha then cutChars false rest
    else if inEscape then cutChars true rest
    else c :: cutChars false rest

/-- handler.go `cut` specialised to the ANSI-stripping filter. -/
def cut (s : String) : String := ⟨cutChars false s.data⟩

/-- A hexadecimal digit character. -/
def hexDigit (n : Nat) : Char :=
  if n < 10 then Char.ofNat (48 + n) else Char.ofNat (87 + n)

/-- Model of Go `strconv.Quote` on one character: escape `"`, backslash
and ASCII control characters; other characters are kept (runes beyond
ASCII are treated as printable in this model). -/
def quoteChar (c : Char) : String :=
  if c = '"' then "\\\""
  else if c = '\\' then "\\\\"
  else if c = '\x07' then "\\a"
  else if c = '\x08' then "\\b"
  else if c = '\x0c' then "\\f"
  else if c = '\n' then "\\n"
  else if c = '\r' then "\\r"
  else if c = '\t' then "\\t"
  else if c = '\x0b' then "\\v"
  else if c.toNat < 0x20 || c.toNat = 0x7f then
    "\\x" ++ String.singleton (hexDigit (c.toNat / 16)) ++
      String.singleton (hexDigit (c.toNat % 16))
  else String.singleton c

/-- Model of Go `strconv.Quote` / `strconv.AppendQuote`. -/
def strconvQuote (s : String) : String :=
  "\"" ++ String.join (s.data.map quoteChar) ++ "\""

/-- handler.go `appendString`: in the quoting no-color path first strip
ANSI escape sequences; then quote exactly when `needsQuoting` holds (in
the color path, re-materialise escape bytes that `strconv.Quote`
escaped). -/
def appendString (s : String) (quote color : Bool) : String :=
  let s1 := if quote && !color then cut s else s
  let q := quote && needsQuoting s1
  if color && q then (strconvQuote s1).replace "\\x1b" "\x1b"
  else if !color && q then strconvQuote s1
  else s1

/-! ### ANSI helpers and level tokens (handler.go) -/

def ansiReset : String := "\x1b[0m"
def ansiFaint : String := "\x1b[2m"
def ansiResetFaint : String := "\x1b[22m"
def ansiBrightRed : String := "\x1b[91m"
def ansiBrightGreen : String := "\x1b[92m"
def ansiBrightYellow : String := "\x1b[93m"
def ansiBrightCyan : String := "\x1b[96m"
def ansiGray : String := "\x1b[90m"
def ansiWhite : String := "\x1b[97m"

/-- handler.go `appendAnsi`: 8-bit ANSI color selection, optionally
faint. -/
def appendAnsi (c : Nat) (faint : Bool) : String :=
  "\x1b[" ++ (if faint then "2;" else "") ++
    (if c < 8 then toString (c + 30)
     else if c < 16 then toString (c + 82)
     else "38;5;" ++ toString c) ++ "m"

/-- The level token written by handler.go `appendTintLevel`. -/
def levelToken (l : Level) : String :=
  if l = LevelTrace then "TRC"
  else if l = LevelDebug then "DBG"
  else if l = LevelInfo then "INF"
  else if l = LevelWarn then "WRN"
  else if l = LevelError then "ERR"
  else if l = LevelPanic then "PNL"
  else "FTL"

/-- The default per-level color of handler.go `appendTintLevel`. -/
def levelAnsi (l : Level) : String :=
  if l = LevelTrace then ansiGray
  else if l = LevelDebug then ansiBrightCyan
  else if l = LevelInfo then ansiWhite
  else if l = LevelWarn then ansiBrightGreen
  else if l = LevelError then ansiBrightYellow
  else if l = LevelPanic then ansiBrightRed
  else if l ≤ LevelTrace then ansiGray
  else ansiBrightRed

/-! ### Value resolution and rendering -/

/-- `slog.Value.Resolve` on this model's values: the only `LogValuer` is
the `colorValue` wrapper, which resolves to the wrapped value. -/
def resolveValue : Value → Value
  | Value.color _ v => resolveValue v
  | v => v

mutual

/-- Model of `fmt.Sprintf("%+v", ·)` on the payloads the model carries
(used only for `KindAny` payloads holding an `Attr`, whose `String`
method prints `key=value`). -/
def goValueString : Value → String
  | Value.str s => s
  | Value.int i => toString i
  | Value.uint n => toString n
  | Value.bool b => toString b
  | Value.anyNil => "<nil>"
  | Value.any s => s
  | Value.anyAttr k v => k ++ "=" ++ goValueString v
  | Value.timeV t => t
  | Value.levelV l => levelString l
  | Value.group as => "[" ++ goGroupString as ++ "]"
  | Value.color _ v => goValueString v

/-- Space-separated `key=value` rendering of a group's attrs, for
`goValueString`. -/
def goGroupString : List (String × Value) → String
  | [] => ""
  | [a] => a.1 ++ "=" ++ goValueString a.2
  | a :: b :: rest =>
    a.1 ++ "=" ++ goValueString a.2 ++ " " ++ goGroupString (b :: rest)

end

/-! ### The SimpleHandler (handler.go) -/

/-- handler.go `HandlerOptions` restricted to the model's scope:
`ReplaceAttr` is nil (the claims address the no-replacement
configuration), the time format is absorbed into the pre-formatted time
text, and the output writer is modelled by the error its `Write` call
returns for given bytes. -/
structure HandlerOptions where
  level : Option Level
  noColor : Bool
  writeErr : String → Option String

/-- handler.go `SimpleHandler`: pre-formatted attrs from `WithAttrs`,
dot-joined group prefix, group-name stack, prefix from `WithPrefix`, and
options. -/
structure SimpleHandler where
  attrsPre : String
  groupPre : String
  groups : List String
  pfx : String
  opts : HandlerOptions

/-- handler.go `SimpleHandler.clone`. -/
def SimpleHandler.clone (h : SimpleHandler) : SimpleHandler :=
  ⟨h.attrsPre, h.groupPre, h.groups, h.pfx, h.opts⟩

/-- handler.go `SimpleHandler.Enabled`: minimum level defaults to
`LevelInfo` when no leveler is configured. -/
def SimpleHandler.Enabled (h : SimpleHandler) (level : Level) : Bool :=
  let minLevel := match h.opts.level with
    | some l => l
    | none => LevelInfo
  decide (minLevel ≤ level)

/-- handler.go `SimpleHandler.resolve`: with color enabled, a
`colorValue` wrapper resolves to its wrapped value together with its
color; otherwise plain resolution with color `-1`. -/
def SimpleHandler.resolve (h : SimpleHandler) (v : Value) : Value × Int :=
  if !h.opts.noColor then
    match v with
    | Value.color c inner => (resolveValue inner, (c : Int))
    | v1 => (resolveValue v1, -1)
  else (resolveValue v, -1)

theorem resolve_fst (h : SimpleHandler) (v : Value) :
    (h.resolve v).1 = resolveValue v := by
  cases hnc : h.opts.noColor <;> cases v <;>
    simp [SimpleHandler.resolve, resolveValue, hnc]

theorem sizeOf_resolveValue_le : ∀ v : Value, sizeOf (resolveValue v) ≤ sizeOf v
  | Value.str _ => by simp [resolveValue]
  | Value.int _ => by simp [resolveValue]
  | Value.uint _ => by simp [resolveValue]
  | Value.bool _ => by simp [resolveValue]
  | Value.group _ => by simp [resolveValue]
  | Value.anyNil => by simp [resolveValue]
  | Value.any _ => by simp [resolveValue]
  | Value.anyAttr _ _ => by simp [resolveValue]
  | Value.timeV _ => by simp [resolveValue]
  | Value.levelV _ => by simp [resolveValue]
  | Value.color c v => by
    have ih := sizeOf_resolveValue_le v
    simp only [resolveValue]
    have hlt : sizeOf v < sizeOf (Value.color c v) := by
      simp
    omega

/-- handler.go `appendTintTime` (the time text is pre-formatted in the
model). -/
def SimpleHandler.appendTintTime (h : SimpleHandler) (t : String)
    (color : Int) : String :=
  if h.opts.noColor then t
  else
    (if color ≥ 0 then appendAnsi color.toNat true else ansiFaint) ++
      t ++ ansiReset

/-- handler.go `appendTintLevel`. -/
def SimpleHandler.appendTintLevel (h : SimpleHandler) (level : Level)
    (color : Int) : String :=
  (if h.opts.noColor then ""
   else if color ≥ 0 then appendAnsi color.toNat false
   else levelAnsi level) ++
    levelToken level ++
    (if h.opts.noColor then "" else ansiReset)

/-- handler.go `SimpleHandler.appendKey`: the dot-qualified key followed
by `=`. -/
def SimpleHandler.appendKey (h : SimpleHandler) (key gp : String) : String :=
  appendString (gp ++ key) true (!h.opts.noColor) ++ "="

mutual

/-- handler.go `SimpleHandler.appendValue`: per-kind rendering of a
resolved value (`KindAny` payloads render via their `%+v` text; the
`KindGroup` and `KindLogValuer` arms are the defensive fallback cases of
the source's `default` branch). -/
def appendValue (h : SimpleHandler) (v : Value) (quote : Bool) : String :=
  match v with
  | Value.str s => appendString s quote (!h.opts.noColor)
  | Value.int i => toString i
  | Value.uint n => toString n
  | Value.bool b => toString b
  | Value.timeV t => t
  | Value.anyNil => appendString "<nil>" quote (!h.opts.noColor)
  | Value.any s => appendString s quote (!h.opts.noColor)
  | Value.anyAttr k v1 =>
    appendString (k ++ "=" ++ goValueString v1) quote (!h.opts.noColor)
  | Value.levelV l => appendString (levelString l) quote (!h.opts.noColor)
  | Value.group as => "\x7b" ++ appendGroupInline h as true ++ "\x7d"
  | Value.color _ v1 =>
    appendString ("LogValuer(" ++ goValueString v1 ++ ")") quote
      (!h.opts.noColor)

/-- The inline `key:value` items of `appendValue`'s group fallback. -/
def appendGroupInline (h : SimpleHandler) :
    List (String × Value) → Bool → String
  | [], _ => ""
  | a :: rest, first =>
    (if first then "" else " ") ++ a.1 ++ ":" ++ appendValue h a.2 true ++
      appendGroupInline h rest false

end

mutual

/-- handler.go `SimpleHandler.appendAttr` (no `ReplaceAttr` configured):
resolve the value, drop the empty attr, expand groups recursively with
dot-joined key qualification, and render a non-group attr as
`key=value ` with the color scheme of the source. -/
def appendAttr (h : SimpleHandler) (gp : String) (gs : List String)
    (a : Attr) : String :=
  let rc := h.resolve a.val
  if isEmptyAttr (a.key, rc.1) then ""
  else
    match hv : rc.1 with
    | Value.group as =>
      if a.key ≠ "" then appendAttrs h (gp ++ a.key ++ ".") (gs ++ [a.key]) as
      else appendAttrs h gp gs as
    | _ =>
      (if h.opts.noColor then
        h.appendKey a.key gp ++ appendValue h rc.1 true
      else if rc.2 ≥ 0 then
        appendAnsi rc.2.toNat true ++ h.appendKey a.key gp ++
          ansiResetFaint ++ appendValue h rc.1 true ++ ansiReset
      else
        ansiFaint ++ h.appendKey a.key gp ++ ansiReset ++
          appendValue h rc.1 true) ++ " "
termination_by sizeOf a
decreasing_by
  all_goals
    have h1 : (h.resolve a.val).1 = resolveValue a.val := resolve_fst h a.val
    have h2 : sizeOf (resolveValue a.val) ≤ sizeOf a.val := sizeOf_resolveValue_le a.val
    rw [h1] at hv
    have h3 : sizeOf (Value.group as) ≤ sizeOf a.val := hv ▸ h2
    have h4 : sizeOf as < sizeOf (Value.group as) := by simp
    have h5 : sizeOf a.val ≤ sizeOf a := by
      rcases a with ⟨k, v⟩
      simp [Attr.val]
    omega

/-- Rendering of a list of attrs by repeated `appendAttr` (the loop bodies
of `Handle`, `WithAttrs` and the group case of `appendAttr`). -/
def appendAttrs (h : SimpleHandler) (gp : String) (gs : List String) :
    List Attr → String
  | [] => ""
  | a :: rest => appendAttr h gp gs a ++ appendAttrs h gp gs rest
termination_by l => sizeOf l
decreasing_by
  · simp
    omega
  · simp

end

/-- handler.go `SimpleHandler.WithAttrs`: a no-op on the empty list;
otherwise pre-render the attrs and append to the accumulated prefix on a
cloned handler. -/
def SimpleHandler.WithAttrs (h : SimpleHandler) (attrs : List Attr) :
    SimpleHandler :=
  if attrs.length = 0 then h
  else
    let buf := appendAttrs h h.groupPre h.groups attrs
    { h.clone with attrsPre := h.attrsPre ++ buf }

/-- handler.go `SimpleHandler.WithGroup`: a no-op on the empty name;
otherwise extend the dotted prefix and the group stack on a clone. -/
def SimpleHandler.WithGroup (h : SimpleHandler) (name : String) :
    SimpleHandler :=
  if name = "" then h
  else
    { h.clone with
        groupPre := h.groupPre ++ name ++ "."
        groups := h.groups ++ [name] }

/-- handler.go `SimpleHandler.WithPrefix`: a no-op on the empty string;
otherwise prepend the new prefix on a clone. -/
def SimpleHandler.WithPrefix (h : SimpleHandler) (p : String) :
    SimpleHandler :=
  if p = "" then h
  else
    { h.clone with pfx := if h.pfx = "" then p else p ++ h.pfx }

/-- The final step of handler.go `Handle`: an empty buffer becomes a bare
newline, otherwise the last byte (the trailing separator) is replaced by
a newline. -/
def finishLine (buf : String) : String :=
  if buf.isEmpty then "\n" else buf.dropRight 1 ++ "\n"

/-- handler.go `SimpleHandler.Handle` (no `ReplaceAttr` configured):
write time (if non-zero), level, prefix (if non-empty), message, the
pre-rendered handler attrs, then the record attrs, into one buffer; swap
the trailing separator for a newline; write to the sink once and return
its error.  The result is the written line and that error. -/
def SimpleHandler.Handle (h : SimpleHandler) (r : Record) :
    String × Option String :=
  let buf := ""
  let buf := buf ++
    (match r.time with
     | none => ""
     | some t => h.appendTintTime t (-1) ++ " ")
  let buf := buf ++ (h.appendTintLevel r.level (-1) ++ " ")
  let buf := buf ++ (if r.pfx ≠ "" then "[" ++ r.pfx ++ "]" ++ " " else "")
  let buf := buf ++ (r.message ++ " ")
  let buf := buf ++ h.attrsPre
  let buf := buf ++ appendAttrs h h.groupPre h.groups r.attrsList
  let line := finishLine buf
  (line, h.opts.writeErr line)

/-! ### OutputVar (util.go) -/

/-- An `io.Writer` value as stored in an `OutputVar`: the nil interface,
`io.Discard`, or a real writer identified by an index. -/
inductive GoWriter where
  | nil
  | discard
  | writer (id : Nat)
deriving DecidableEq, Repr

/-- The state of a util.go `OutputVar`: the atomic ready flag and the
atomic writer cell (`none` when nothing was ever stored). -/
structure OutputVarState where
  ready : Bool
  writer : Option GoWriter
deriving DecidableEq, Repr

/-- The zero `OutputVar`: not ready, nothing stored. -/
def OutputVar.initial : OutputVarState := ⟨false, none⟩

/-- util.go `OutputVar.Set`: store the writer and mark ready unless it is
nil or `io.Discard`. -/
def OutputVar.set (w : GoWriter) : OutputVarState :=
  ⟨decide (w ≠ GoWriter.nil ∧ w ≠ GoWriter.discard), some w⟩

/-- util.go `OutputVar.Discard`: true when the ready flag is unset. -/
def OutputVarState.Discard (v : OutputVarState) : Bool := !v.ready

/-- util.go `OutputVar.Output`: `io.Discard` when discarding, else the
stored writer.  `none` models the type-assertion panic
`v.writer.Load().(io.Writer)` would raise if the ready flag were set with
nothing stored. -/
def OutputVarState.Output (v : OutputVarState) : Option GoWriter :=
  if v.Discard then some GoWriter.discard else v.writer

/-- The `OutputVar` states reachable through its API: the zero value, or
the result of any `Set` (which overwrites both fields). -/
inductive OVReachable : OutputVarState → Prop where
  | init : OVReachable OutputVar.initial
  | set (w : GoWriter) : OVReachable (OutputVar.set w)

/-! ### The logger's gated log path (logger.go) -/

/-- logger.go `Logger.log`: return before building a `Record` or invoking
the handler when the output is discarding or the level is disabled;
otherwise build the record, add the parsed attrs (only when some were
passed) and hand it to the handler.  `none` means the gate returned early
and nothing was written; `some` carries the handler's written line and
write error. -/
def loggerLog (h : SimpleHandler) (out : OutputVarState)
    (now : Option String) (level : Level) (msg : String) (args : List Arg) :
    Option (String × Option String) :=
  if out.Discard || !h.Enabled level then none
  else
    let r := NewRecord now level msg
    let r := if args.length > 0 then r.AddAttrs (argsToAttrSlice args) else r
    some (h.Handle r)

/-! ### Lemmas about the record layer -/

theorem GoSlice.push_data (s : GoSlice) (a : Attr) :
    (s.push a).data = s.data ++ [a] := by
  rcases s with ⟨d, sp⟩
  cases sp <;> rfl

theorem GoSlice.push_spare (s : GoSlice) (a : Attr) :
    (s.push a).spare = s.spare.drop 1 := by
  rcases s with ⟨d, sp⟩
  cases sp <;> rfl

theorem GoSlice.pushAll_data (as : List Attr) :
    ∀ s : GoSlice, (s.pushAll as).data = s.data ++ as := by
  induction as with
  | nil => intro s; simp [GoSlice.pushAll]
  | cons a rest ih =>
    intro s
    have h1 : GoSlice.pushAll s (a :: rest) = GoSlice.pushAll (s.push a) rest := rfl
    rw [h1, ih, GoSlice.push_data]
    simp

theorem GoSlice.pushAll_spare (as : List Attr) :
    ∀ s : GoSlice, (s.pushAll as).spare = s.spare.drop as.length := by
  induction as with
  | nil => intro s; simp [GoSlice.pushAll]
  | cons a rest ih =>
    intro s
    have h1 : GoSlice.pushAll s (a :: rest) = GoSlice.pushAll (s.push a) rest := rfl
    rw [h1, ih, GoSlice.push_spare]
    simp [List.drop_drop]

theorem GoSlice.grow_data (s : GoSlice) (n : Nat) : (s.grow n).data = s.data := by
  unfold GoSlice.grow
  split <;> rfl

theorem GoSlice.grow_spare_length (s : GoSlice) (n : Nat) :
    n ≤ (s.grow n).spare.length := by
  unfold GoSlice.grow
  split
  · omega
  · simp

theorem addFront_full (front attrs : List Attr)
    (hf : ¬ front.length < nAttrsInline) : addFront front attrs = (front, attrs) := by
  cases attrs <;> simp [addFront, hf]

theorem addFront_no_sentinel (attrs : List Attr)
    (hs : ∀ a ∈ attrs, isEmptyGroup a.val = false) :
    ∀ front : List Attr, front.length ≤ nAttrsInline →
      addFront front attrs =
        (front ++ attrs.take (nAttrsInline - front.length),
         attrs.drop (nAttrsInline - front.length)) := by
  induction attrs with
  | nil => intro front _; simp [addFront]
  | cons a rest ih =>
    intro front hle
    by_cases hf : front.length < nAttrsInline
    · have ha : isEmptyGroup a.val = false := hs a (by simp)
      rw [addFront]
      simp only [hf, if_true, ha, Bool.false_eq_true, if_false]
      have hrest : ∀ b ∈ rest, isEmptyGroup b.val = false := by
        intro b hb; exact hs b (by simp [hb])
      rw [ih hrest (front ++ [a]) (by simp; omega)]
      have hk : nAttrsInline - front.length = (nAttrsInline - (front ++ [a]).length) + 1 := by
        simp; omega
      rw [hk]
      simp [List.take_succ_cons, List.drop_succ_cons]
    · have heq : front.length = nAttrsInline := by omega
      rw [addFront_full front (a :: rest) hf]
      simp [heq]

theorem addFront_all_sentinel (attrs : List Attr)
    (hs : ∀ a ∈ attrs, isEmptyGroup a.val = true) :
    ∀ front : List Attr,
      (addFront front attrs).1 = front ∧
      ∀ a ∈ (addFront front attrs).2, isEmptyGroup a.val = true := by
  induction attrs with
  | nil => intro front; simp [addFront]
  | cons a rest ih =>
    intro front
    by_cases hf : front.length < nAttrsInline
    · have ha : isEmptyGroup a.val = true := hs a (by simp)
      rw [addFront]
      simp only [hf, if_true, ha, if_true]
      exact ih (fun b hb => hs b (by simp [hb])) front
    · rw [addFront_full front (a :: rest) hf]
      exact ⟨rfl, hs⟩

theorem addFront_append (attrs : List Attr) :
    ∀ front : List Attr,
      (addFront front attrs).1 ++
          (addFront front attrs).2.filter (fun a => !isEmptyGroup a.val) =
        front ++ attrs.filter (fun a => !isEmptyGroup a.val) := by
  induction attrs with
  | nil => intro front; simp [addFront]
  | cons a rest ih =>
    intro front
    by_cases hf : front.length < nAttrsInline
    · rw [addFront]
      simp only [hf, if_true]
      by_cases ha : isEmptyGroup a.val
      · simp only [ha, if_true]
        rw [ih front]
        simp [List.filter_cons, ha]
      · simp only [ha, Bool.false_eq_true, if_false]
        rw [ih (front ++ [a])]
        simp [List.filter_cons, ha]
    · rw [addFront_full front (a :: rest) hf]

theorem length_sub_countEmptyGroups (as : List Attr) :
    as.length - countEmptyGroups as =
      (as.filter (fun a => !isEmptyGroup a.val)).length := by
  induction as with
  | nil => simp [countEmptyGroups]
  | cons a rest ih =>
    have hc : countEmptyGroups rest ≤ rest.length := by
      unfold countEmptyGroups
      exact List.length_filter_le _ _
    by_cases ha : isEmptyGroup a.val <;>
      simp [countEmptyGroups, List.filter_cons, ha] at * <;> omega

/-- `AddAttrs` on a record whose next spare slot (if any) is zero: the
corruption branch is not taken; the inline array is filled by `addFront`
and the remaining non-sentinel attrs go to the overflow, whose spare
capacity is fully consumed. -/
theorem addAttrs_no_corruption (r : Record) (attrs : List Attr)
    (hsp : r.back.spare.head?.all isEmptyAttr = true) :
    (r.AddAttrs attrs).front = (addFront r.front attrs).1 ∧
      (r.AddAttrs attrs).back.data =
        r.back.data ++
          (addFront r.front attrs).2.filter (fun a => !isEmptyGroup a.val) := by
  unfold Record.AddAttrs
  have hb1 : (match r.back.spare with
      | [] => r.back
      | e :: _ => if isEmptyAttr e then r.back else (r.back.clip).push bugAttr) =
      r.back := by
    cases hc : r.back.spare with
    | nil => rfl
    | cons e t =>
      have : isEmptyAttr e = true := by
        rw [hc] at hsp
        simpa [Option.all] using hsp
      simp [this]
  rw [hb1]
  refine ⟨rfl, ?_⟩
  simp only [GoSlice.pushAll_data, GoSlice.grow_data]

/-! ### Claim C2 -/

/-- C2: appending `k` attrs, none an empty-group sentinel, to a freshly
created `Record` yields `NumAttrs = k`, with the first `min k 5` attrs in
the inline array and the rest in the overflow; and appending only
empty-group sentinels (to any record whose next spare overflow slot, if
present, is zero, as the record invariant guarantees) contributes zero to
`NumAttrs`. -/
theorem addAttrs_inline_overflow_split :
    (∀ (attrs : List Attr) (t : Option String) (lvl : Level) (msg : String),
      (∀ a ∈ attrs, isEmptyGroup a.val = false) →
      ((NewRecord t lvl msg).AddAttrs attrs).NumAttrs = attrs.length ∧
        ((NewRecord t lvl msg).AddAttrs attrs).front = attrs.take nAttrsInline ∧
        ((NewRecord t lvl msg).AddAttrs attrs).back.data = attrs.drop nAttrsInline) ∧
    (∀ (r : Record) (attrs : List Attr),
      r.back.spare.head?.all isEmptyAttr = true →
      (∀ a ∈ attrs, isEmptyGroup a.val = true) →
      (r.AddAttrs attrs).NumAttrs = r.NumAttrs) := by
  constructor
  · intro attrs t lvl msg hs
    have hsp : (NewRecord t lvl msg).back.spare.head?.all isEmptyAttr = true := rfl
    obtain ⟨hfr, hbk⟩ := addAttrs_no_corruption (NewRecord t lvl msg) attrs hsp
    have haf := addFront_no_sentinel attrs hs [] (by simp [nAttrsInline])
    simp only [List.length_nil, Nat.sub_zero, List.nil_append] at haf
    have haf1 : (addFront [] attrs).1 = attrs.take nAttrsInline := by rw [haf]
    have haf2 : (addFront [] attrs).2 = attrs.drop nAttrsInline := by rw [haf]
    have hfront0 : (NewRecord t lvl msg).front = [] := rfl
    rw [hfront0] at hfr hbk
    rw [haf1] at hfr
    rw [haf2] at hbk
    have hfil : (attrs.drop nAttrsInline).filter (fun a => !isEmptyGroup a.val) =
        attrs.drop nAttrsInline := by
      rw [List.filter_eq_self]
      intro a ha
      have := hs a (List.mem_of_mem_drop ha)
      simp [this]
    rw [hfil] at hbk
    have hbk0 : (NewRecord t lvl msg).back.data = [] := rfl
    rw [hbk0] at hbk
    simp only [List.nil_append] at hbk
    refine ⟨?_, hfr, hbk⟩
    unfold Record.NumAttrs
    rw [hfr, hbk]
    have h1 : (attrs.take nAttrsInline).length = min nAttrsInline attrs.length :=
      List.length_take _ _
    have h2 : (attrs.drop nAttrsInline).length = attrs.length - nAttrsInline :=
      List.length_drop _ _
    omega
  · intro r attrs hsp hs
    obtain ⟨hfr, hbk⟩ := addAttrs_no_corruption r attrs hsp
    obtain ⟨h1, h2⟩ := addFront_all_sentinel attrs hs r.front
    have hfil : ((addFront r.front attrs).2.filter (fun a => !isEmptyGroup a.val)) = [] := by
      rw [List.filter_eq_nil_iff]
      intro a ha
      have := h2 a ha
      simp [this]
    unfold Record.NumAttrs
    rw [hfr, hbk, h1, hfil]
    simp

/-- Witness for C2 at a six-attr list and a one-sentinel list. -/
theorem addAttrs_inline_overflow_split_witness :
    ((NewRecord none LevelInfo "m").AddAttrs
        [("a", Value.int 1), ("b", Value.int 2), ("c", Value.int 3),
         ("d", Value.int 4), ("e", Value.int 5), ("f", Value.int 6)]).NumAttrs =
      6 ∧
    ((NewRecord none LevelInfo "m").AddAttrs
        [("", Value.group []), ("", Value.group [])]).NumAttrs =
      (NewRecord none LevelInfo "m").NumAttrs :=
  ⟨(addAttrs_inline_overflow_split.1
      [("a", Value.int 1), ("b", Value.int 2), ("c", Value.int 3),
       ("d", Value.int 4), ("e", Value.int 5), ("f", Value.int 6)]
      none LevelInfo "m" (by decide)).1,
   addAttrs_inline_overflow_split.2 (NewRecord none LevelInfo "m")
      [("", Value.group []), ("", Value.group [])] (by decide) (by decide)⟩

/-! ### Claim C3 -/

/-- C3: on a record whose overflow slice has spare capacity whose next
slot holds a non-zero attr (the aliasing-corruption condition), `AddAttrs`
does not panic (it is total): it clips the overflow to a fresh backing
array, appends the `!BUG` diagnostic attr, then appends the given attrs
(the inline phase and the empty-group filtering are unchanged), leaving
no spare capacity aliasing the old array. -/
theorem addAttrs_corruption_self_heals (r : Record) (attrs : List Attr)
    (e : Attr) (tl : List Attr)
    (hspare : r.back.spare = e :: tl) (hne : isEmptyAttr e = false) :
    (r.AddAttrs attrs).front = (addFront r.front attrs).1 ∧
      (r.AddAttrs attrs).back.data =
        r.back.data ++ [bugAttr] ++
          (addFront r.front attrs).2.filter (fun a => !isEmptyGroup a.val) ∧
      (r.AddAttrs attrs).back.spare = [] := by
  unfold Record.AddAttrs
  have hb1 : (match r.back.spare with
      | [] => r.back
      | e :: _ => if isEmptyAttr e then r.back else (r.back.clip).push bugAttr) =
      (r.back.clip).push bugAttr := by
    rw [hspare]
    simp [hne]
  rw [hb1]
  have hclip : ((r.back.clip).push bugAttr) = ⟨r.back.data ++ [bugAttr], []⟩ := by
    rfl
  rw [hclip]
  refine ⟨rfl, ?_, ?_⟩
  · simp only [GoSlice.pushAll_data, GoSlice.grow_data]
  · rw [GoSlice.pushAll_spare]
    set rest := (addFront r.front attrs).2 with hrest
    set n := rest.length - countEmptyGroups rest with hn
    have hlen : (rest.filter (fun a => !isEmptyGroup a.val)).length = n := by
      rw [hn, length_sub_countEmptyGroups]
    unfold GoSlice.grow
    by_cases hz : n ≤ ([] : List Attr).length
    · simp only [List.length_nil] at hz
      simp [hz, hlen]
    · simp only [List.length_nil] at hz
      simp [hz, hlen]

/-- Witness for C3: a record with a corrupted spare slot self-heals. -/
theorem addAttrs_corruption_self_heals_witness :
    (Record.AddAttrs
        ⟨none, "", "m", LevelInfo,
         [("a", Value.int 1), ("b", Value.int 2), ("c", Value.int 3),
          ("d", Value.int 4), ("e", Value.int 5)],
         ⟨[("f", Value.int 6)], [("g", Value.int 7)]⟩⟩
        [("h", Value.int 8)]).back.data =
      [("f", Value.int 6)] ++ [bugAttr] ++ [("h", Value.int 8)] := by
  have h := addAttrs_corruption_self_heals
    ⟨none, "", "m", LevelInfo,
     [("a", Value.int 1), ("b", Value.int 2), ("c", Value.int 3),
      ("d", Value.int 4), ("e", Value.int 5)],
     ⟨[("f", Value.int 6)], [("g", Value.int 7)]⟩⟩
    [("h", Value.int 8)] ("g", Value.int 7) [] rfl (by decide)
  have h2 := h.2.1
  rw [h2]
  simp [addFront, nAttrsInline, isEmptyGroup, Attr.val]

/-! ### Claim C5 -/

/-- C5: `Clone` clips the overflow's spare capacity to nothing, preserves
`NumAttrs` and the attr iteration sequence, and any later `AddAttrs` on
the clone (the original being a distinct immutable value in this pure
model) extends the clone's attrs with exactly the non-sentinel given
attrs — in particular the clone can never alias the source's backing
array, so the `!BUG` corruption branch is unreachable from a clone.  The
hypothesis is the record invariant (a non-empty overflow forces a full
inline array). -/
theorem clone_clips_and_preserves (r : Record) (attrs : List Attr)
    (hwf : r.back.data ≠ [] → r.front.length = nAttrsInline) :
    r.Clone.back.spare = [] ∧
      r.Clone.NumAttrs = r.NumAttrs ∧
      r.Clone.attrsList = r.attrsList ∧
      (r.Clone.AddAttrs attrs).attrsList =
        r.attrsList ++ attrs.filter (fun a => !isEmptyGroup a.val) := by
  refine ⟨rfl, rfl, rfl, ?_⟩
  have hsp : r.Clone.back.spare.head?.all isEmptyAttr = true := rfl
  obtain ⟨hfr, hbk⟩ := addAttrs_no_corruption r.Clone attrs hsp
  have hfc : r.Clone.front = r.front := rfl
  have hbc : r.Clone.back.data = r.back.data := rfl
  unfold Record.attrsList
  rw [hfr, hbk, hfc, hbc]
  by_cases hb : r.back.data = []
  · rw [hb]
    simp only [List.append_nil]
    have := addFront_append attrs r.front
    rw [← this]
    simp
  · have hfull : ¬ r.front.length < nAttrsInline := by
      have := hwf hb
      omega
    rw [addFront_full r.front attrs hfull]
    simp

/-- Witness for C5 at a concrete record and attr list. -/
theorem clone_clips_and_preserves_witness :
    (Record.Clone ⟨none, "", "m", LevelInfo, [("a", Value.int 1)], ⟨[], []⟩⟩).back.spare = [] ∧
    ((Record.Clone ⟨none, "", "m", LevelInfo, [("a", Value.int 1)], ⟨[], []⟩⟩).AddAttrs
        [("b", Value.int 2)]).attrsList =
      (Record.attrsList ⟨none, "", "m", LevelInfo, [("a", Value.int 1)], ⟨[], []⟩⟩) ++
        [("b", Value.int 2)] := by
  have h := clone_clips_and_preserves
    ⟨none, "", "m", LevelInfo, [("a", Value.int 1)], ⟨[], []⟩⟩
    [("b", Value.int 2)] (by intro hc; simp at hc)
  refine ⟨h.1, ?_⟩
  rw [h.2.2.2]
  simp [List.filter, isEmptyGroup, Attr.val]

/-! ### Claim C4 -/

/-- C4 counterexample: a lone string argument produces an attr whose
value is the string itself (`String(badKey, x)`), not the empty value the
claim states. -/
theorem argsToAttr_lone_string_not_empty :
    (argsToAttr (Arg.prim (GoAny.str "hello")) []).1 = (badKey, Value.str "hello") ∧
      (argsToAttr (Arg.prim (GoAny.str "hello")) []).1.val ≠ Value.str "" := by
  constructor
  · rfl
  · intro hc
    simp [argsToAttr, StringAttr, Attr.val] at hc

/-- C4 (amended): the argument-list parser is total (never panics) and
consumes as follows — an `Attr` as-is; a string with a following item as
key/value pair; a lone string as `badKey` with the lone string itself as
value; a non-string non-`Attr` as a value under `badKey`. -/
theorem argsToAttr_cases :
    (∀ (a : Attr) (rest : List Arg), argsToAttr (Arg.attr a) rest = (a, rest)) ∧
    (∀ s : String,
      argsToAttr (Arg.prim (GoAny.str s)) [] = ((badKey, Value.str s), [])) ∧
    (∀ (s : String) (x : Arg) (rest : List Arg),
      argsToAttr (Arg.prim (GoAny.str s)) (x :: rest) = ((s, argAnyValue x), rest)) ∧
    (∀ (v : GoAny) (rest : List Arg), (∀ s, v ≠ GoAny.str s) →
      argsToAttr (Arg.prim v) rest = ((badKey, AnyValue v), rest)) := by
  refine ⟨fun a rest => rfl, fun s => rfl, fun s x rest => rfl, ?_⟩
  intro v rest hns
  cases v with
  | str s => exact absurd rfl (hns s)
  | int i => cases rest <;> rfl
  | bool b => cases rest <;> rfl
  | raw s => cases rest <;> rfl

/-- Witness for C4's amended parser cases at concrete inputs. -/
theorem argsToAttr_cases_witness :
    argsToAttr (Arg.prim (GoAny.int 7)) [Arg.prim (GoAny.str "x")] =
      ((badKey, Value.int 7), [Arg.prim (GoAny.str "x")]) ∧
    argsToAttr (Arg.prim (GoAny.str "k")) [Arg.prim (GoAny.int 3)] =
      (("k", Value.int 3), []) :=
  ⟨argsToAttr_cases.2.2.2 (GoAny.int 7) [Arg.prim (GoAny.str "x")]
      (fun s h => by cases h),
   argsToAttr_cases.2.2.1 "k" (Arg.prim (GoAny.int 3)) []⟩

/-! ### Claim C9 -/

/-- C9: `WithAttrs` on the empty list, `WithGroup` on the empty name, and
`WithPrefix` on the empty string each return the receiver unchanged (in
the Go source, the very same pointer). -/
theorem with_empty_noops (h : SimpleHandler) :
    h.WithAttrs [] = h ∧ h.WithGroup "" = h ∧ h.WithPrefix "" = h := by
  refine ⟨?_, ?_, ?_⟩ <;>
    simp [SimpleHandler.WithAttrs, SimpleHandler.WithGroup, SimpleHandler.WithPrefix]

/-! ### Claim C10 -/

/-- C10: on every reachable `OutputVar` state, `Output` never yields the
nil writer (and never panics on the stored cell), and `Discard` is true
exactly when the stored writer is unset, nil, or `io.Discard`; hence
`Write`, which goes through `Output`, never dereferences a nil writer. -/
theorem outputVar_never_nil (v : OutputVarState) (hv : OVReachable v) :
    v.Output ≠ none ∧ v.Output ≠ some GoWriter.nil ∧
      (v.Discard = true ↔
        (v.writer = none ∨ v.writer = some GoWriter.nil ∨
          v.writer = some GoWriter.discard)) := by
  cases hv with
  | init => refine ⟨by decide, by decide, by decide⟩
  | set w =>
    cases w with
    | nil => refine ⟨by decide, by decide, by decide⟩
    | discard => refine ⟨by decide, by decide, by decide⟩
    | writer id =>
      refine ⟨?_, ?_, ?_⟩
      · simp [OutputVar.set, OutputVarState.Output, OutputVarState.Discard]
      · simp [OutputVar.set, OutputVarState.Output, OutputVarState.Discard]
      · simp [OutputVar.set, OutputVarState.Discard]

/-- Witness for C10 at a real writer stored by `Set`. -/
theorem outputVar_never_nil_witness :
    (OutputVar.set (GoWriter.writer 0)).Output ≠ some GoWriter.nil ∧
      (OutputVar.set (GoWriter.writer 0)).Discard = false :=
  ⟨(outputVar_never_nil (OutputVar.set (GoWriter.writer 0))
      (OVReachable.set (GoWriter.writer 0))).2.1,
   by decide⟩

/-! ### Claim C7 -/

/-- C7: when the event level is below the handler's minimum (which
defaults to `LevelInfo`) or the output sink is a no-op (nil or discard,
i.e. `Discard` reports true), the internal log path returns `none` before
constructing a `Record` or invoking the handler, so nothing is written to
the sink. -/
theorem loggerLog_disabled_writes_nothing (h : SimpleHandler)
    (out : OutputVarState) (now : Option String) (level : Level)
    (msg : String) (args : List Arg)
    (hgate : out.Discard = true ∨
      level < (match h.opts.level with | some l => l | none => LevelInfo)) :
    loggerLog h out now level msg args = none := by
  unfold loggerLog
  rcases hgate with hd | hl
  · simp [hd]
  · have he : h.Enabled level = false := by
      unfold SimpleHandler.Enabled
      simp only [decide_eq_false_iff_not, not_le]
      exact hl
    simp [he]

/-- Witness for C7: a debug event against a warn-level logger writes
nothing, and so does any event against a discarding sink. -/
theorem loggerLog_disabled_writes_nothing_witness :
    loggerLog ⟨"", "", [], "", ⟨some LevelWarn, true, fun _ => none⟩⟩
        (OutputVar.set (GoWriter.writer 0)) none LevelDebug "dbg" [] = none ∧
    loggerLog ⟨"", "", [], "", ⟨some LevelTrace, true, fun _ => none⟩⟩
        (OutputVar.set GoWriter.nil) none LevelError "err" [] = none :=
  ⟨loggerLog_disabled_writes_nothing _ _ none LevelDebug "dbg" []
      (Or.inr (by decide)),
   loggerLog_disabled_writes_nothing _ _ none LevelError "err" []
      (Or.inl (by decide))⟩

/-! ### Claim C6: Handle writes its parts in order -/

/-- The time block of `Handle`: nothing for the zero time, else the
tinted time followed by the separator. -/
def timePart (h : SimpleHandler) (r : Record) : String :=
  match r.time with
  | none => ""
  | some t => h.appendTintTime t (-1) ++ " "

/-- The level block of `Handle`. -/
def levelPart (h : SimpleHandler) (r : Record) : String :=
  h.appendTintLevel r.level (-1) ++ " "

/-- The prefix block of `Handle`: bracket-wrapped, only when non-empty. -/
def prefixPart (r : Record) : String :=
  if r.pfx ≠ "" then "[" ++ r.pfx ++ "]" ++ " " else ""

/-- The message block of `Handle`. -/
def messagePart (r : Record) : String := r.message ++ " "

/-- The record-attributes block of `Handle`: the record's attrs rendered
under the handler's group prefix and stack (groups expanded recursively
by `appendAttr`, nested keys dot-qualified). -/
def attrsPart (h : SimpleHandler) (r : Record) : String :=
  appendAttrs h h.groupPre h.groups r.attrsList

theorem handle_eq_parts (h : SimpleHandler) (r : Record) :
    h.Handle r =
      (finishLine (timePart h r ++ levelPart h r ++ prefixPart r ++
          messagePart r ++ h.attrsPre ++ attrsPart h r),
       h.opts.writeErr
         (finishLine (timePart h r ++ levelPart h r ++ prefixPart r ++
           messagePart r ++ h.attrsPre ++ attrsPart h r))) := by
  unfold SimpleHandler.Handle timePart levelPart prefixPart messagePart attrsPart
  cases r.time <;> simp [String.append_assoc]

/-- C6: `Handle` builds one buffer from, in order, the time, the level,
the non-empty prefix, the message, the pre-accumulated handler attrs and
the record's own attrs (groups expanded recursively with dot-joined key
qualification inside `attrsPart`), replaces the final trailing separator
with a newline (`finishLine`), performs the single sink write and returns
the sink's error for exactly that line. -/
theorem handle_writes_parts_in_order (h : SimpleHandler) (r : Record) :
    h.Handle r =
      (finishLine (timePart h r ++ levelPart h r ++ prefixPart r ++
          messagePart r ++ h.attrsPre ++ attrsPart h r),
       h.opts.writeErr
         (finishLine (timePart h r ++ levelPart h r ++ prefixPart r ++
           messagePart r ++ h.attrsPre ++ attrsPart h r))) :=
  handle_eq_parts h r

/-! ### Claim C1: the default no-color line format -/

/-- Concatenation of a list of strings. -/
def joinAll : List String → String
  | [] => ""
  | s :: rest => s ++ joinAll rest

/-- Whether a value is a group (`Kind() == KindGroup`). -/
def isGroupValue : Value → Bool
  | Value.group _ => true
  | _ => false

/-- With color disabled, `resolve` is plain resolution with no color. -/
theorem resolve_noColor (h : SimpleHandler) (v : Value)
    (hnc : h.opts.noColor = true) :
    h.resolve v = (resolveValue v, -1) := by
  unfold SimpleHandler.resolve
  simp [hnc]

/-- A non-group, non-empty attr renders as `key=value ` (no-color path). -/
theorem appendAttr_nonGroup (h : SimpleHandler) (gp : String)
    (gs : List String) (a : Attr) (hnc : h.opts.noColor = true)
    (hng : isGroupValue (resolveValue a.val) = false)
    (hne : isEmptyAttr (a.key, resolveValue a.val) = false) :
    appendAttr h gp gs a =
      h.appendKey a.key gp ++ appendValue h (resolveValue a.val) true ++ " " := by
  rw [appendAttr]
  have hres : h.resolve a.val = (resolveValue a.val, -1) := resolve_noColor h a.val hnc
  rw [hres]
  simp only [hne, Bool.false_eq_true, if_false]
  cases hval : resolveValue a.val with
  | group as => rw [hval] at hng; simp [isGroupValue] at hng
  | str s => simp [hnc]
  | int i => simp [hnc]
  | uint n => simp [hnc]
  | bool b => simp [hnc]
  | anyNil => simp [hnc]
  | any s => simp [hnc]
  | anyAttr k v => simp [hnc]
  | timeV t => simp [hnc]
  | levelV l => simp [hnc]
  | color c v => simp [hnc]

/-- C1 counterexample: against the default no-color handler with no
attribute-replacement callback, the rendered line begins with the
timestamp, not with the level token — the claimed
`<level> <time> …` ordering is false. -/
theorem handle_level_not_first :
    (SimpleHandler.Handle ⟨"", "", [], "", ⟨none, true, fun _ => none⟩⟩
        ⟨some "Oct 11 10:00:00.000", "app", "hi", LevelInfo,
         [("k", Value.str "v")], ⟨[], []⟩⟩).1 =
      "Oct 11 10:00:00.000 INF [app] hi k=v\n" ∧
    ((levelToken LevelInfo).data.isPrefixOf
        (SimpleHandler.Handle ⟨"", "", [], "", ⟨none, true, fun _ => none⟩⟩
          ⟨some "Oct 11 10:00:00.000", "app", "hi", LevelInfo,
           [("k", Value.str "v")], ⟨[], []⟩⟩).1.data) = false := by
  have hline : (SimpleHandler.Handle ⟨"", "", [], "", ⟨none, true, fun _ => none⟩⟩
      ⟨some "Oct 11 10:00:00.000", "app", "hi", LevelInfo,
       [("k", Value.str "v")], ⟨[], []⟩⟩).1 =
      "Oct 11 10:00:00.000 INF [app] hi k=v\n" := by
    simp [SimpleHandler.Handle, SimpleHandler.appendTintTime,
      SimpleHandler.appendTintLevel, levelToken, Record.attrsList, finishLine,
      appendAttrs, appendAttr, SimpleHandler.resolve, resolveValue, isEmptyAttr,
      SimpleHandler.appendKey, appendValue, appendString, cut, cutChars,
      needsQuoting, needsQuotingChar, safeSet, LevelInfo, LevelTrace, LevelDebug]
    decide
  refine ⟨hline, ?_⟩
  rw [hline]
  decide

/-- C1 (amended): through the default no-color handler (empty
pre-accumulated attrs, empty group prefix and stack) with no
attribute-replacement callback, a record with a non-zero time renders as
`<time> <level> [<prefix>] <message> <key1>=<value1> …\n` — the
timestamp first, then the level token, the bracketed prefix only if
non-empty, the message, and the attrs, with the trailing separator
replaced by a newline; non-group non-empty attrs each render as
`key=value `. -/
theorem handle_default_line_format (h : SimpleHandler) (r : Record)
    (ts : String) (hpre : h.attrsPre = "") (hgp : h.groupPre = "")
    (hgs : h.groups = []) (hnc : h.opts.noColor = true)
    (ht : r.time = some ts) :
    (h.Handle r).1 =
      finishLine (ts ++ " " ++ levelToken r.level ++ " " ++
        (if r.pfx = "" then "" else "[" ++ r.pfx ++ "] ") ++
        r.message ++ " " ++ appendAttrs h "" [] r.attrsList) ∧
    (∀ attrs : List Attr,
      (∀ a ∈ attrs, isGroupValue (resolveValue a.val) = false ∧
        isEmptyAttr (a.key, resolveValue a.val) = false) →
      appendAttrs h "" [] attrs =
        joinAll (attrs.map (fun a =>
          appendString a.key true false ++ "=" ++
            appendValue h (resolveValue a.val) true ++ " "))) := by
  constructor
  · have hp := handle_eq_parts h r
    have h1 : (h.Handle r).1 =
        finishLine (timePart h r ++ levelPart h r ++ prefixPart r ++
          messagePart r ++ h.attrsPre ++ attrsPart h r) := by
      rw [hp]
    rw [h1]
    congr 1
    unfold timePart levelPart prefixPart messagePart attrsPart
    rw [ht, hpre, hgp, hgs]
    unfold SimpleHandler.appendTintTime SimpleHandler.appendTintLevel
    rw [hnc]
    simp only [if_true]
    have hbr : ∀ p : String, p ≠ "" →
        ("[" ++ p ++ "]" ++ " " : String) = "[" ++ p ++ "] " := by
      intro p _
      simp [String.append_assoc]
    by_cases hpx : r.pfx = ""
    · simp [hpx, String.append_assoc]
    · simp only [hpx, ne_eq, not_false_iff, if_true, Bool.false_eq_true,
        if_false, hbr r.pfx hpx]
      simp [String.append_assoc]
  · intro attrs hattrs
    induction attrs with
    | nil => simp [appendAttrs, joinAll]
    | cons a rest ih =>
      have ha := hattrs a (by simp)
      rw [appendAttrs, appendAttr_nonGroup h "" [] a hnc ha.1 ha.2]
      rw [ih (fun b hb => hattrs b (by simp [hb]))]
      unfold SimpleHandler.appendKey
      rw [hnc]
      simp [joinAll, String.append_assoc]

/-- Witness for C1's amended format at a concrete record. -/
theorem handle_default_line_format_witness :
    (SimpleHandler.Handle ⟨"", "", [], "", ⟨none, true, fun _ => none⟩⟩
        ⟨some "T", "", "msg", LevelWarn, [("k", Value.str "v")], ⟨[], []⟩⟩).1 =
      finishLine ("T" ++ " " ++ levelToken LevelWarn ++ " " ++
        (if ("" : String) = "" then "" else "[" ++ "" ++ "] ") ++
        "msg" ++ " " ++
        appendAttrs ⟨"", "", [], "", ⟨none, true, fun _ => none⟩⟩ "" []
          (Record.attrsList
            ⟨some "T", "", "msg", LevelWarn, [("k", Value.str "v")], ⟨[], []⟩⟩)) :=
  (handle_default_line_format ⟨"", "", [], "", ⟨none, true, fun _ => none⟩⟩
      ⟨some "T", "", "msg", LevelWarn, [("k", Value.str "v")], ⟨[], []⟩⟩
      "T" rfl rfl rfl rfl rfl).1

/-! ### Claim C8: the quoting rule -/

/-- C8 counterexample: the double-quote character is quoted by the
renderer, although it is not a space, not `=`, not a control character
and not a non-printable rune — so quoting does not happen only on the
claimed character classes. -/
theorem needsQuoting_quote_char :
    needsQuoting "\"" = true ∧
      appendString "\"" true false = "\"\\\"\"" ∧
      ("\"" : String).data.all (fun c =>
        !(c == ' ' || c == '=' || decide (c.toNat < 0x20) ||
          decide (c.toNat = 0x7f) || decide (128 ≤ c.toNat))) = true := by
  refine ⟨by decide, by decide, by decide⟩

/-- The per-character quoting trigger on ASCII, characterised: space,
`=`, double quote, or a control character other than the ANSI escape
byte (note: the backslash and DEL never trigger). -/
theorem needsQuotingChar_ascii (c : Char) (hc : c.toNat < 128) :
    needsQuotingChar c =
      (c == ' ' || c == '=' || c == '"' ||
        (decide (c.toNat < 0x20) && !(c == '\x1b'))) := by
  have key : ∀ m : Fin 128,
      needsQuotingChar (Char.ofNat m.val) =
        (Char.ofNat m.val == ' ' || Char.ofNat m.val == '=' ||
          Char.ofNat m.val == '"' ||
          (decide ((Char.ofNat m.val).toNat < 0x20) &&
            !(Char.ofNat m.val == '\x1b'))) := by
    decide
  have hco : Char.ofNat c.toNat = c := Char.ofNat_toNat c
  have hk := key ⟨c.toNat, hc⟩
  simpa [hco] using hk

/-- C8 (amended): for ASCII strings, the no-color renderer quotes a value
exactly when `needsQuoting` holds of the ANSI-stripped text, and
`needsQuoting` holds exactly when the string is empty or contains a
space, `=`, a double quote, or a control character other than the escape
byte (so `"` additionally triggers quoting, while the escape byte, DEL
and the backslash never do). -/
theorem needsQuoting_ascii_characterization (s : String)
    (hascii : ∀ c ∈ s.data, c.toNat < 128) :
    needsQuoting s =
      (s.isEmpty || s.data.any (fun c =>
        c == ' ' || c == '=' || c == '"' ||
          (decide (c.toNat < 0x20) && !(c == '\x1b')))) ∧
    appendString s true false =
      (if needsQuoting (cut s) then strconvQuote (cut s) else cut s) := by
  constructor
  · unfold needsQuoting
    congr 1
    have hgen : ∀ l : List Char, (∀ c ∈ l, c.toNat < 128) →
        l.any needsQuotingChar =
          l.any (fun c => c == ' ' || c == '=' || c == '"' ||
            (decide (c.toNat < 0x20) && !(c == '\x1b'))) := by
      intro l
      induction l with
      | nil => intro _; rfl
      | cons c rest ih =>
        intro hl
        simp only [List.any_cons]
        rw [needsQuotingChar_ascii c (hl c (by simp)),
          ih (fun d hd => hl d (by simp [hd]))]
    exact hgen s.data hascii
  · unfold appendString
    simp

/-- Witness for C8's amended characterization at a space-containing
string. -/
theorem needsQuoting_ascii_characterization_witness :
    needsQuoting "a b" =
      (("a b" : String).isEmpty || ("a b" : String).data.any (fun c =>
        c == ' ' || c == '=' || c == '"' ||
          (decide (c.toNat < 0x20) && !(c == '\x1b')))) ∧
    appendString "a b" true false =
      (if needsQuoting (cut "a b") then strconvQuote (cut "a b")
       else cut "a b") :=
  needsQuoting_ascii_characterization "a b" (by decide)

end L4g
